import Mathlib

/-!
Verification of the steer-driven-runner iteration controller, state store and
feedback store.  The definitions below are a shallow embedding of the Python
sources in src/steer_driven_runner (state.py, feedback.py, runner.py):

* pure helpers become Lean functions with the same names;
* the filesystem objects each component touches (the JSON state file, the
  pending feedback file and its archive directory) become explicit values
  threaded through the operations;
* the iteration loop of AutonomousRunner.run becomes a fuel-indexed recursive
  function over a per-iteration environment oracle that supplies what the
  outside world (stop file, git, the agent subprocess, posted feedback) would
  answer at each iteration.

Python ints that are used as counters or thresholds are embedded as Nat
(they start at 0 and are only incremented or reset in the source); subprocess
exit codes are embedded as Int.
-/

namespace SteerRunner

/-! ## state.py: enums and the State record -/

/-- RunStatus enum from state.py. -/
inductive RunStatus where
  | waiting
  | running
  | stopped
  | error
deriving DecidableEq, Repr

/-- String values of the RunStatus enum members (str-valued Enum). -/
def RunStatus.toStr : RunStatus → String
  | .waiting => "waiting"
  | .running => "running"
  | .stopped => "stopped"
  | .error => "error"

/-- Inverse of RunStatus.toStr: how pydantic validates a string into the enum;
an unknown string is a validation error. -/
def RunStatus.parse (s : String) : Option RunStatus :=
  if s = "waiting" then some .waiting
  else if s = "running" then some .running
  else if s = "stopped" then some .stopped
  else if s = "error" then some .error
  else none

/-- TaskStatus enum from state.py. -/
inductive TaskStatus where
  | pending
  | in_progress
  | completed
  | error
deriving DecidableEq, Repr

/-- String values of the TaskStatus enum members. -/
def TaskStatus.toStr : TaskStatus → String
  | .pending => "pending"
  | .in_progress => "in_progress"
  | .completed => "completed"
  | .error => "error"

/-- How pydantic validates a string into TaskStatus. -/
def TaskStatus.parse (s : String) : Option TaskStatus :=
  if s = "pending" then some .pending
  else if s = "in_progress" then some .in_progress
  else if s = "completed" then some .completed
  else if s = "error" then some .error
  else none

/-- IterationState model from state.py. -/
structure IterationState where
  current : Int
  specified : Int
deriving DecidableEq, Repr

/-- CodeMetrics model from state.py (both fields default to 0). -/
structure CodeMetrics where
  total_lines : Int
  file_count : Int
deriving DecidableEq, Repr

/-- TaskInfo model from state.py. -/
structure TaskInfo where
  description : String
  status : TaskStatus
deriving DecidableEq, Repr

/-- State model from state.py.  The datetime timestamp is embedded as the
ISO string it serializes to; pydantic round-trips a serialized datetime
through that string form. -/
structure State where
  status : RunStatus
  iteration : IterationState
  code_metrics : CodeMetrics
  current_task : TaskInfo
  last_output : String
  timestamp : String
deriving DecidableEq, Repr

/-- The fragment of JSON that State.model_dump emits and State.load consumes:
strings, integers, and objects.  The state snapshot uses no other JSON
forms. -/
inductive Json where
  | str (s : String)
  | int (n : Int)
  | obj (fields : List (String × Json))

/-- Field lookup in a JSON object; none on non-objects or missing keys. -/
def Json.get (j : Json) (key : String) : Option Json :=
  match j with
  | .obj fields => fields.lookup key
  | _ => none

/-- Extract a JSON string. -/
def Json.asStr : Json → Option String
  | .str s => some s
  | _ => none

/-- Extract a JSON integer. -/
def Json.asInt : Json → Option Int
  | .int n => some n
  | _ => none

/-- What State.save serializes: self.model_dump with JSON mode, which emits
every field, enum members as their string values and the datetime as a
string. -/
def State.dump (s : State) : Json :=
  .obj
    [ ("status", .str s.status.toStr),
      ("iteration", .obj
        [ ("current", .int s.iteration.current),
          ("specified", .int s.iteration.specified) ]),
      ("code_metrics", .obj
        [ ("total_lines", .int s.code_metrics.total_lines),
          ("file_count", .int s.code_metrics.file_count) ]),
      ("current_task", .obj
        [ ("description", .str s.current_task.description),
          ("status", .str s.current_task.status.toStr) ]),
      ("last_output", .str s.last_output),
      ("timestamp", .str s.timestamp) ]

/-- Pydantic validation of the iteration object: both integer fields are
required. -/
def IterationState.parse (j : Json) : Option IterationState := do
  let c ← (← j.get "current").asInt
  let sp ← (← j.get "specified").asInt
  pure ⟨c, sp⟩

/-- Pydantic validation of the code_metrics object; each field defaults
to 0 when absent. -/
def CodeMetrics.parse (j : Json) : Option CodeMetrics := do
  let tl ← match j.get "total_lines" with
    | none => some (0 : Int)
    | some v => v.asInt
  let fc ← match j.get "file_count" with
    | none => some (0 : Int)
    | some v => v.asInt
  pure ⟨tl, fc⟩

/-- Pydantic validation of the current_task object. -/
def TaskInfo.parse (j : Json) : Option TaskInfo := do
  let d ← (← j.get "description").asStr
  let st ← (← j.get "status").asStr
  let st ← TaskStatus.parse st
  pure ⟨d, st⟩

/-- The validation State.load performs via the model constructor: status,
iteration and current_task are required; code_metrics defaults to zeros,
last_output to the empty string, and timestamp to the current time (passed
in as now, since the default factory reads the clock); any invalid field
raises a validation error, embedded as none. -/
def State.parse (now : String) (j : Json) : Option State := do
  let st ← (← j.get "status").asStr
  let st ← RunStatus.parse st
  let it ← IterationState.parse (← j.get "iteration")
  let cm ← match j.get "code_metrics" with
    | none => some (⟨0, 0⟩ : CodeMetrics)
    | some v => CodeMetrics.parse v
  let ct ← TaskInfo.parse (← j.get "current_task")
  let lo ← match j.get "last_output" with
    | none => some ""
    | some v => v.asStr
  let ts ← match j.get "timestamp" with
    | none => some now
    | some v => v.asStr
  pure ⟨st, it, cm, ct, lo, ts⟩

/-- State.save: the state file's contents after the write is the serialized
document.  The file contents are embedded as an optional JSON document (none
stands for a missing file). -/
def State.save (s : State) : Option Json :=
  some s.dump

/-- State.load: none on a missing file, otherwise parse and validate;
malformed content is none. -/
def State.load (now : String) (file : Option Json) : Option State :=
  match file with
  | none => none
  | some j => State.parse now j

/-! ## feedback.py: the feedback store -/

/-- The piece of the filesystem FeedbackManager owns: the pending.md file
contents (none when the file does not exist) and the archive directory as a
list of (file name, contents) pairs. -/
structure FeedbackStore where
  pending : Option String
  archive : List (String × String)
deriving DecidableEq, Repr

/-- FeedbackManager.has_pending_feedback: the pending file exists. -/
def FeedbackStore.has_pending_feedback (fs : FeedbackStore) : Bool :=
  fs.pending.isSome

/-- FeedbackManager.archive_feedback: when nothing is pending return None
before touching the archive directory; otherwise rename pending.md to a
timestamped file in the archive directory.  The timestamp string is passed
in (the source formats the current time). -/
def FeedbackStore.archive_feedback (ts : String) (fs : FeedbackStore) :
    Option String × FeedbackStore :=
  match fs.pending with
  | none => (none, fs)
  | some content =>
      (some (ts ++ ".md"),
        { pending := none, archive := fs.archive ++ [(ts ++ ".md", content)] })

/-- FeedbackManager.read_pending_feedback: the pending contents, if any. -/
def FeedbackStore.read_pending_feedback (fs : FeedbackStore) : Option String :=
  fs.pending

/-! ## runner.py: the iteration loop -/

/-- The configuration fields of config.py that the loop consults.  All four
are positive integers in every shipped default (50, 10, 3, 3); they are
embedded as Nat. -/
structure Config where
  max_iterations : Nat
  checkpoint_interval : Nat
  max_no_progress : Nat
  max_consecutive_failures : Nat
deriving DecidableEq, Repr

/-- What the outside world answers during one iteration of the loop:
whether stop.txt exists at the per-iteration check, whether a human posted
feedback since the previous iteration (merged into the pending flag at the
start of the iteration), the git HEAD before and after the agent runs
(none when not in a git repository), and the agent subprocess launch result
(none embeds the FileNotFoundError raised when the agent binary is missing,
some code a normal exit with that code). -/
structure IterEnv where
  stop_file : Bool
  posted : Bool
  commit_before : Option String
  launch : Option Int
  commit_after : Option String
deriving DecidableEq, Repr

/-- AutonomousRunner.run_codex: launch the agent subprocess and return its
exit code; a FileNotFoundError when launching is caught and reported as
exit code 1. -/
def run_codex (launch : Option Int) : Int :=
  match launch with
  | some code => code
  | none => 1

/-- The result of AutonomousRunner.handle_exit_code: whether the loop should
continue, the updated consecutive_failures counter, and whether the pending
feedback was archived during the call. -/
structure HandleResult where
  cont : Bool
  consecutive_failures : Nat
  archived : Bool
deriving DecidableEq, Repr

/-- AutonomousRunner.handle_exit_code.  Exit code 0: reset the failure
counter, archive the pending feedback when the commit marker moved and
feedback is pending, continue.  Exit code 99: stop (project complete).
Exit code 1: increment the failure counter and stop once it reaches
max_consecutive_failures, otherwise continue.  Any other code: stop
(unknown exit code). -/
def handle_exit_code (max_consecutive_failures : Nat) (exit_code : Int)
    (commit_before commit_after : Option String) (has_pending : Bool)
    (consecutive_failures : Nat) : HandleResult :=
  if exit_code = 0 then
    { cont := true, consecutive_failures := 0,
      archived := (commit_before != commit_after) && has_pending }
  else if exit_code = 99 then
    { cont := false, consecutive_failures := consecutive_failures,
      archived := false }
  else if exit_code = 1 then
    if max_consecutive_failures ≤ consecutive_failures + 1 then
      { cont := false, consecutive_failures := consecutive_failures + 1,
        archived := false }
    else
      { cont := true, consecutive_failures := consecutive_failures + 1,
        archived := false }
  else
    { cont := false, consecutive_failures := consecutive_failures,
      archived := false }

/-- The distinct termination paths of AutonomousRunner.run, one per printed
banner: graceful stop-file exit, project complete (exit 99), escalation
after repeated failures, the no-progress circuit breaker, an unknown agent
exit code, a checkpoint pause, and the max-iterations pause. -/
inductive Outcome where
  | stopFileExit
  | projectComplete
  | escalated
  | circuitBreaker
  | unknownExit
  | checkpoint
  | maxIterations
deriving DecidableEq, Repr

/-- One call of write_state, keeping the fields the claims are about:
the run status, the iteration number and the task status written. -/
structure StateWrite where
  status : RunStatus
  iteration : Nat
  task_status : TaskStatus
deriving DecidableEq, Repr

/-- The audit record of one executed iteration: its number, whether the
agent was invoked (false only on the stop-file exit, which returns before
the invocation), the agent exit code (0 when not invoked), whether the
commit marker was unchanged, whether handle_exit_code was reached (false
when the circuit breaker fired first or on the stop-file exit), the pending
feedback flag before the invocation and after the iteration, whether the
feedback was archived, and the two circuit-breaker counters after the
iteration. -/
structure IterRecord where
  iteration : Nat
  invoked : Bool
  exit_code : Int
  unchanged : Bool
  handled : Bool
  pending_before : Bool
  pending_after : Bool
  archived : Bool
  cf_after : Nat
  npc_after : Nat
deriving DecidableEq, Repr

/-- What a full run produces: the value run returns, which termination path
produced it, the state writes in order, and one record per executed
iteration in order. -/
structure RunResult where
  exit_code : Int
  outcome : Outcome
  writes : List StateWrite
  iters : List IterRecord
deriving DecidableEq, Repr

/-- The loop body of AutonomousRunner.run from the top of the while loop,
with fuel = max_iterations - iteration many iterations left.  Each
iteration, in source order: increment the iteration counter, write a
RUNNING state, check the stop file (returning 0 when present), read
feedback, capture the commit before, invoke the agent, capture the commit
after, run the no-progress circuit breaker (returning 1 when the counter
reaches max_no_progress, with no further state write), apply
handle_exit_code (writing a final STOPPED state and returning when it says
stop), pause at checkpoint boundaries (writing a STOPPED state and
returning 2), otherwise loop; when the fuel runs out the max-iterations
banner path writes a STOPPED state and returns 2. -/
def runFrom (cfg : Config) (env : Nat → IterEnv) :
    Nat → Nat → Nat → Nat → Bool → RunResult
  | 0, _it, _cf, _npc, _pending =>
      { exit_code := 2, outcome := .maxIterations,
        writes := [⟨RunStatus.stopped, cfg.max_iterations, TaskStatus.pending⟩],
        iters := [] }
  | fuel + 1, it, cf, npc, pending =>
      let i := it + 1
      let e := env i
      let pb := pending || e.posted
      let w1 : StateWrite := ⟨RunStatus.running, i, TaskStatus.in_progress⟩
      if e.stop_file then
        { exit_code := 0, outcome := .stopFileExit, writes := [w1],
          iters := [
            { iteration := i, invoked := false, exit_code := 0,
              unchanged := false, handled := false, pending_before := pb,
              pending_after := pb, archived := false, cf_after := cf,
              npc_after := npc }] }
      else
        let code := run_codex e.launch
        let unchanged : Bool := e.commit_before == e.commit_after
        let npc' := if unchanged then npc + 1 else 0
        if unchanged = true ∧ cfg.max_no_progress ≤ npc' then
          { exit_code := 1, outcome := .circuitBreaker, writes := [w1],
            iters := [
              { iteration := i, invoked := true, exit_code := code,
                unchanged := unchanged, handled := false, pending_before := pb,
                pending_after := pb, archived := false, cf_after := cf,
                npc_after := npc' }] }
        else
          let h := handle_exit_code cfg.max_consecutive_failures code
            e.commit_before e.commit_after pb cf
          let pa := if h.archived then false else pb
          let rec0 : IterRecord :=
            { iteration := i, invoked := true, exit_code := code,
              unchanged := unchanged, handled := true, pending_before := pb,
              pending_after := pa, archived := h.archived,
              cf_after := h.consecutive_failures, npc_after := npc' }
          if h.cont = false then
            { exit_code := if code = 0 ∨ code = 99 then 0 else code,
              outcome := if code = 99 then .projectComplete
                else if code = 1 then .escalated else .unknownExit,
              writes := [w1, ⟨RunStatus.stopped, i, TaskStatus.completed⟩],
              iters := [rec0] }
          else if i % cfg.checkpoint_interval = 0 then
            { exit_code := 2, outcome := .checkpoint,
              writes := [w1, ⟨RunStatus.stopped, i, TaskStatus.pending⟩],
              iters := [rec0] }
          else
            let r := runFrom cfg env fuel i h.consecutive_failures npc' pa
            { exit_code := r.exit_code, outcome := r.outcome,
              writes := w1 :: r.writes, iters := rec0 :: r.iters }

/-- AutonomousRunner.run after a successful environment validation: the
loop starts at iteration 0 with both circuit-breaker counters at 0;
pending0 says whether pending.md exists at startup. -/
def run (cfg : Config) (env : Nat → IterEnv) (pending0 : Bool) : RunResult :=
  runFrom cfg env cfg.max_iterations 0 0 0 pending0

/-- How many times the agent subprocess was invoked during the run. -/
def RunResult.invocations (r : RunResult) : Nat :=
  (r.iters.filter (fun rec => rec.invoked)).length

/-- Pair every iteration record with the value a counter had when its
iteration began, threading the value through the f field of each record. -/
def chainPairs (f : IterRecord → Nat) : Nat → List IterRecord → List (Nat × IterRecord)
  | _, [] => []
  | a, rec :: rest => (a, rec) :: chainPairs f (f rec) rest

/-- Case analysis and induction principle for runFrom: one case per branch
of the loop body, with the derived per-iteration values (the merged pending
flag, the agent exit code, the unchanged test, the updated no-progress
counter, the handle_exit_code result and the pending flag after archiving)
exposed as equations. -/
theorem runFrom_rec (cfg : Config) (env : Nat → IterEnv)
    (C : Nat → Nat → Nat → Nat → Bool → RunResult → Prop)
    (base : ∀ it cf npc p, C 0 it cf npc p
      { exit_code := 2, outcome := .maxIterations,
        writes := [⟨RunStatus.stopped, cfg.max_iterations, TaskStatus.pending⟩],
        iters := [] })
    (stop : ∀ fuel it cf npc p pb,
      pb = (p || (env (it + 1)).posted) →
      (env (it + 1)).stop_file = true →
      C (fuel + 1) it cf npc p
        { exit_code := 0, outcome := .stopFileExit,
          writes := [⟨RunStatus.running, it + 1, TaskStatus.in_progress⟩],
          iters := [⟨it + 1, false, 0, false, false, pb, pb, false, cf, npc⟩] })
    (breaker : ∀ fuel it cf npc p pb code,
      pb = (p || (env (it + 1)).posted) →
      code = run_codex (env (it + 1)).launch →
      (env (it + 1)).stop_file = false →
      ((env (it + 1)).commit_before == (env (it + 1)).commit_after) = true →
      cfg.max_no_progress ≤ npc + 1 →
      C (fuel + 1) it cf npc p
        { exit_code := 1, outcome := .circuitBreaker,
          writes := [⟨RunStatus.running, it + 1, TaskStatus.in_progress⟩],
          iters := [⟨it + 1, true, code, true, false, pb, pb, false, cf, npc + 1⟩] })
    (halt : ∀ fuel it cf npc p pb code unch npc' h pa,
      pb = (p || (env (it + 1)).posted) →
      code = run_codex (env (it + 1)).launch →
      unch = ((env (it + 1)).commit_before == (env (it + 1)).commit_after) →
      npc' = (if unch then npc + 1 else 0) →
      h = handle_exit_code cfg.max_consecutive_failures code
            (env (it + 1)).commit_before (env (it + 1)).commit_after pb cf →
      pa = (if h.archived then false else pb) →
      (env (it + 1)).stop_file = false →
      ¬(unch = true ∧ cfg.max_no_progress ≤ npc') →
      h.cont = false →
      C (fuel + 1) it cf npc p
        { exit_code := if code = 0 ∨ code = 99 then 0 else code,
          outcome := if code = 99 then .projectComplete
            else if code = 1 then .escalated else .unknownExit,
          writes := [⟨RunStatus.running, it + 1, TaskStatus.in_progress⟩,
            ⟨RunStatus.stopped, it + 1, TaskStatus.completed⟩],
          iters := [⟨it + 1, true, code, unch, true, pb, pa, h.archived,
            h.consecutive_failures, npc'⟩] })
    (pause : ∀ fuel it cf npc p pb code unch npc' h pa,
      pb = (p || (env (it + 1)).posted) →
      code = run_codex (env (it + 1)).launch →
      unch = ((env (it + 1)).commit_before == (env (it + 1)).commit_after) →
      npc' = (if unch then npc + 1 else 0) →
      h = handle_exit_code cfg.max_consecutive_failures code
            (env (it + 1)).commit_before (env (it + 1)).commit_after pb cf →
      pa = (if h.archived then false else pb) →
      (env (it + 1)).stop_file = false →
      ¬(unch = true ∧ cfg.max_no_progress ≤ npc') →
      h.cont = true →
      (it + 1) % cfg.checkpoint_interval = 0 →
      C (fuel + 1) it cf npc p
        { exit_code := 2, outcome := .checkpoint,
          writes := [⟨RunStatus.running, it + 1, TaskStatus.in_progress⟩,
            ⟨RunStatus.stopped, it + 1, TaskStatus.pending⟩],
          iters := [⟨it + 1, true, code, unch, true, pb, pa, h.archived,
            h.consecutive_failures, npc'⟩] })
    (next : ∀ fuel it cf npc p pb code unch npc' h pa,
      pb = (p || (env (it + 1)).posted) →
      code = run_codex (env (it + 1)).launch →
      unch = ((env (it + 1)).commit_before == (env (it + 1)).commit_after) →
      npc' = (if unch then npc + 1 else 0) →
      h = handle_exit_code cfg.max_consecutive_failures code
            (env (it + 1)).commit_before (env (it + 1)).commit_after pb cf →
      pa = (if h.archived then false else pb) →
      (env (it + 1)).stop_file = false →
      ¬(unch = true ∧ cfg.max_no_progress ≤ npc') →
      h.cont = true →
      (it + 1) % cfg.checkpoint_interval ≠ 0 →
      C fuel (it + 1) h.consecutive_failures npc' pa
        (runFrom cfg env fuel (it + 1) h.consecutive_failures npc' pa) →
      C (fuel + 1) it cf npc p
        { exit_code :=
            (runFrom cfg env fuel (it + 1) h.consecutive_failures npc' pa).exit_code,
          outcome :=
            (runFrom cfg env fuel (it + 1) h.consecutive_failures npc' pa).outcome,
          writes := ⟨RunStatus.running, it + 1, TaskStatus.in_progress⟩ ::
            (runFrom cfg env fuel (it + 1) h.consecutive_failures npc' pa).writes,
          iters := ⟨it + 1, true, code, unch, true, pb, pa, h.archived,
            h.consecutive_failures, npc'⟩ ::
            (runFrom cfg env fuel (it + 1) h.consecutive_failures npc' pa).iters }) :
    ∀ fuel it cf npc p, C fuel it cf npc p (runFrom cfg env fuel it cf npc p) := by
  intro fuel
  induction fuel with
  | zero => intro it cf npc p; exact base it cf npc p
  | succ fuel ih =>
      intro it cf npc p
      simp only [runFrom]
      by_cases hstop : (env (it + 1)).stop_file = true
      · rw [if_pos hstop]
        exact stop fuel it cf npc p _ rfl hstop
      · rw [if_neg hstop]
        have hstop' : (env (it + 1)).stop_file = false := by
          simpa using hstop
        by_cases hcb : ((env (it + 1)).commit_before ==
            (env (it + 1)).commit_after) = true ∧
            cfg.max_no_progress ≤
              (if ((env (it + 1)).commit_before ==
                  (env (it + 1)).commit_after) = true then npc + 1 else 0)
        · rw [if_pos hcb]
          obtain ⟨hu, hle⟩ := hcb
          rw [if_pos hu] at hle
          simp only [hu]
          exact breaker fuel it cf npc p _ _ rfl rfl hstop' hu hle
        · rw [if_neg hcb]
          by_cases hcont : (handle_exit_code cfg.max_consecutive_failures
              (run_codex (env (it + 1)).launch) (env (it + 1)).commit_before
              (env (it + 1)).commit_after (p || (env (it + 1)).posted) cf).cont =
              false
          · rw [if_pos hcont]
            exact halt fuel it cf npc p _ _ _ _ _ _ rfl rfl rfl rfl rfl rfl
              hstop' hcb hcont
          · rw [if_neg hcont]
            have hcont' : (handle_exit_code cfg.max_consecutive_failures
                (run_codex (env (it + 1)).launch) (env (it + 1)).commit_before
                (env (it + 1)).commit_after (p || (env (it + 1)).posted) cf).cont =
                true := by
              simpa using hcont
            by_cases hmod : (it + 1) % cfg.checkpoint_interval = 0
            · rw [if_pos hmod]
              exact pause fuel it cf npc p _ _ _ _ _ _ rfl rfl rfl rfl rfl rfl
                hstop' hcb hcont' hmod
            · rw [if_neg hmod]
              exact next fuel it cf npc p _ _ _ _ _ _ rfl rfl rfl rfl rfl rfl
                hstop' hcb hcont' hmod (ih (it + 1) _ _ _)

/-- The last element of a list is unchanged by consing in front of a
nonempty list. -/
theorem getLast?_cons_eq_some {α : Type} {l : List α} {a b : α}
    (h : l.getLast? = some b) : (a :: l).getLast? = some b := by
  cases l with
  | nil => simp at h
  | cons c cs => rw [List.getLast?_cons_cons]; exact h

/-- Which termination paths leave which final snapshot: the handle-driven
stops (project complete, escalation, unknown exit code) end on a STOPPED
write, while the circuit-breaker stop returns exit code 1 having written
only RUNNING snapshots. -/
theorem runFrom_fatal_writes (cfg : Config) (env : Nat → IterEnv)
    (fuel it cf npc : Nat) (p : Bool) :
    ((runFrom cfg env fuel it cf npc p).outcome = Outcome.escalated ∨
     (runFrom cfg env fuel it cf npc p).outcome = Outcome.unknownExit →
      ∃ n, (runFrom cfg env fuel it cf npc p).writes.getLast? =
        some ⟨RunStatus.stopped, n, TaskStatus.completed⟩) ∧
    ((runFrom cfg env fuel it cf npc p).outcome = Outcome.circuitBreaker →
      (runFrom cfg env fuel it cf npc p).exit_code = 1 ∧
      (runFrom cfg env fuel it cf npc p).writes ≠ [] ∧
      ∀ w ∈ (runFrom cfg env fuel it cf npc p).writes,
        w.status = RunStatus.running) := by
  refine runFrom_rec cfg env
    (fun _ _ _ _ _ r =>
      (r.outcome = Outcome.escalated ∨ r.outcome = Outcome.unknownExit →
        ∃ n, r.writes.getLast? =
          some ⟨RunStatus.stopped, n, TaskStatus.completed⟩) ∧
      (r.outcome = Outcome.circuitBreaker →
        r.exit_code = 1 ∧ r.writes ≠ [] ∧
        ∀ w ∈ r.writes, w.status = RunStatus.running))
    ?_ ?_ ?_ ?_ ?_ ?_ fuel it cf npc p
  · intro it cf npc p
    exact ⟨fun h => by rcases h with h | h <;> simp at h, fun h => by simp at h⟩
  · intro fuel it cf npc p pb hpb hstop
    exact ⟨fun h => by rcases h with h | h <;> simp at h, fun h => by simp at h⟩
  · intro fuel it cf npc p pb code hpb hcode hstop hu hle
    refine ⟨fun h => by rcases h with h | h <;> simp at h, fun _ => ⟨rfl, ?_, ?_⟩⟩
    · simp
    · intro w hw
      simp only [List.mem_singleton] at hw
      rw [hw]
  · intro fuel it cf npc p pb code unch npc' h pa hpb hcode hunch hnpc hh hpa
      hstop hncb hcont
    refine ⟨fun _ => ⟨it + 1, rfl⟩, fun hout => ?_⟩
    exfalso
    simp only at hout
    split at hout
    · exact Outcome.noConfusion hout
    · split at hout
      · exact Outcome.noConfusion hout
      · exact Outcome.noConfusion hout
  · intro fuel it cf npc p pb code unch npc' h pa hpb hcode hunch hnpc hh hpa
      hstop hncb hcont hmod
    exact ⟨fun h => by rcases h with h | h <;> simp at h, fun h => by simp at h⟩
  · intro fuel it cf npc p pb code unch npc' h pa hpb hcode hunch hnpc hh hpa
      hstop hncb hcont hmod ihr
    refine ⟨fun hout => ?_, fun hout => ?_⟩
    · obtain ⟨n, hn⟩ := ihr.1 (by simpa using hout)
      exact ⟨n, getLast?_cons_eq_some hn⟩
    · obtain ⟨h1, h2, h3⟩ := ihr.2 (by simpa using hout)
      refine ⟨h1, by simp, ?_⟩
      intro w hw
      simp only [List.mem_cons] at hw
      rcases hw with hw | hw
      · rw [hw]
      · exact h3 w hw

/-- Configuration used to exercise the circuit breaker in one iteration:
max_no_progress is 1, the other thresholds are at their defaults. -/
def cfgNoState : Config :=
  { max_iterations := 5, checkpoint_interval := 10, max_no_progress := 1,
    max_consecutive_failures := 3 }

/-- Environment with no stop file, no feedback, no git repository (both
markers absent, hence unchanged every iteration) and an agent that always
exits 0. -/
def envNoCommit : Nat → IterEnv := fun _ =>
  { stop_file := false, posted := false, commit_before := none,
    launch := some 0, commit_after := none }

/-- C1 counterexample: a run that terminates through the circuit breaker
(exit code 1) in which no state snapshot with status STOPPED is ever
written, refuting the claim that every fatal termination persists a
STOPPED snapshot before run returns: the last snapshot on disk is the
RUNNING one from the start of the fatal iteration. -/
theorem circuit_breaker_no_stopped_write_cex :
    (run cfgNoState envNoCommit false).outcome = Outcome.circuitBreaker ∧
    (run cfgNoState envNoCommit false).exit_code = 1 ∧
    ∀ w ∈ (run cfgNoState envNoCommit false).writes,
      w.status ≠ RunStatus.stopped := by
  decide

/-- C1 amended: the handle-driven fatal terminations (escalation after
max_consecutive_failures, unknown agent exit code) write a final STOPPED
snapshot before run returns, but the circuit-breaker termination after
max_no_progress does not: it returns exit code 1 with only RUNNING
snapshots written, so the state file retains the RUNNING snapshot from the
start of the fatal iteration. -/
theorem fatal_paths_state_writes (cfg : Config) (env : Nat → IterEnv)
    (p0 : Bool) :
    ((run cfg env p0).outcome = Outcome.escalated ∨
     (run cfg env p0).outcome = Outcome.unknownExit →
      ∃ n, (run cfg env p0).writes.getLast? =
        some ⟨RunStatus.stopped, n, TaskStatus.completed⟩) ∧
    ((run cfg env p0).outcome = Outcome.circuitBreaker →
      (run cfg env p0).exit_code = 1 ∧ (run cfg env p0).writes ≠ [] ∧
      ∀ w ∈ (run cfg env p0).writes, w.status = RunStatus.running) :=
  runFrom_fatal_writes cfg env cfg.max_iterations 0 0 0 p0

/-- Configuration whose escalation threshold is one failure. -/
def cfgEscalate : Config :=
  { max_iterations := 5, checkpoint_interval := 10, max_no_progress := 5,
    max_consecutive_failures := 1 }

/-- Environment in which the agent always exits 1 while the commit marker
moves every iteration. -/
def envFailCommit : Nat → IterEnv := fun _ =>
  { stop_file := false, posted := false, commit_before := some "a",
    launch := some 1, commit_after := some "b" }

/-- Witness for fatal_paths_state_writes: an escalated run ends on a
STOPPED write, and a circuit-breaker run returns 1 with only RUNNING
writes. -/
theorem fatal_paths_state_writes_witness :
    (∃ n, (run cfgEscalate envFailCommit false).writes.getLast? =
      some ⟨RunStatus.stopped, n, TaskStatus.completed⟩) ∧
    ((run cfgNoState envNoCommit false).exit_code = 1 ∧
      (run cfgNoState envNoCommit false).writes ≠ [] ∧
      ∀ w ∈ (run cfgNoState envNoCommit false).writes,
        w.status = RunStatus.running) :=
  ⟨(fatal_paths_state_writes cfgEscalate envFailCommit false).1
      (Or.inl (by decide)),
    (fatal_paths_state_writes cfgNoState envNoCommit false).2 (by decide)⟩

/-- Environment in which the agent reports project completion (exit 99)
every iteration while no commit is ever produced. -/
def envCompleteNoCommit : Nat → IterEnv := fun _ =>
  { stop_file := false, posted := false, commit_before := none,
    launch := some 99, commit_after := none }

/-- C2 counterexample: with max_no_progress 1 and an unchanged commit
marker, an iteration in which the agent exits 99 terminates through the
circuit breaker with process exit code 1, not with the success outcome;
the no-progress check runs before the exit-code policy, so exit 99 does
not terminate with success regardless of noProgressCount and the marker. -/
theorem exit99_preempted_by_breaker_cex :
    (run cfgNoState envCompleteNoCommit false).exit_code = 1 ∧
    (run cfgNoState envCompleteNoCommit false).outcome =
      Outcome.circuitBreaker := by
  decide

/-- C2 amended: an iteration in which the agent exits 99 terminates run
immediately with the success outcome (exit code 0, project-complete path,
no further agent invocation) regardless of consecutiveFailures, provided
the circuit breaker does not fire in that same iteration: the commit
marker changed, or noProgressCount + 1 is still below max_no_progress. -/
theorem exit99_terminates_success (cfg : Config) (env : Nat → IterEnv)
    (fuel it cf npc : Nat) (p : Bool)
    (hstop : (env (it + 1)).stop_file = false)
    (h99 : (env (it + 1)).launch = some 99)
    (hsafe : (env (it + 1)).commit_before ≠ (env (it + 1)).commit_after ∨
      npc + 1 < cfg.max_no_progress) :
    (runFrom cfg env (fuel + 1) it cf npc p).exit_code = 0 ∧
    (runFrom cfg env (fuel + 1) it cf npc p).outcome =
      Outcome.projectComplete ∧
    (runFrom cfg env (fuel + 1) it cf npc p).invocations = 1 := by
  have hncb : ¬(((env (it + 1)).commit_before ==
      (env (it + 1)).commit_after) = true ∧
      cfg.max_no_progress ≤
        (if ((env (it + 1)).commit_before ==
            (env (it + 1)).commit_after) = true then npc + 1 else 0)) := by
    rintro ⟨h1, h2⟩
    rw [if_pos h1] at h2
    rcases hsafe with hne | hlt
    · exact hne (by simpa using h1)
    · omega
  simp only [runFrom]
  rw [if_neg (by simp [hstop]), if_neg hncb, h99]
  norm_num [run_codex, handle_exit_code, RunResult.invocations]

/-- Environment in which the agent exits 99 while the commit marker moves. -/
def envCompleteCommit : Nat → IterEnv := fun _ =>
  { stop_file := false, posted := false, commit_before := some "a",
    launch := some 99, commit_after := some "b" }

/-- Witness for exit99_terminates_success on a concrete run. -/
theorem exit99_terminates_success_witness :
    (run cfgEscalate envCompleteCommit false).exit_code = 0 ∧
    (run cfgEscalate envCompleteCommit false).outcome =
      Outcome.projectComplete ∧
    (run cfgEscalate envCompleteCommit false).invocations = 1 :=
  exit99_terminates_success cfgEscalate envCompleteCommit 4 0 0 0 false
    rfl rfl (Or.inl (by decide))

/-! ## Exit-code policy case analysis -/

/-- handle_exit_code on exit code 0 resets the failure counter. -/
theorem handle_cf_zero (mcf : Nat) (cb ca : Option String) (hp : Bool)
    (cf : Nat) :
    (handle_exit_code mcf 0 cb ca hp cf).consecutive_failures = 0 := by
  simp [handle_exit_code]

/-- handle_exit_code on exit code 1 increments the failure counter. -/
theorem handle_cf_one (mcf : Nat) (cb ca : Option String) (hp : Bool)
    (cf : Nat) :
    (handle_exit_code mcf 1 cb ca hp cf).consecutive_failures = cf + 1 := by
  by_cases hm : mcf ≤ cf + 1 <;> simp [handle_exit_code, hm]

/-- handle_exit_code on any exit code other than 0 and 1 leaves the
failure counter unchanged. -/
theorem handle_cf_other (mcf : Nat) (code : Int) (cb ca : Option String)
    (hp : Bool) (cf : Nat) (h0 : code ≠ 0) (h1 : code ≠ 1) :
    (handle_exit_code mcf code cb ca hp cf).consecutive_failures = cf := by
  by_cases h99 : code = 99 <;> simp [handle_exit_code, h0, h1, h99]

/-- The policy continues only after exit code 0 (counter reset) or after
exit code 1 strictly below the escalation threshold (counter
incremented). -/
theorem handle_cont_true (mcf : Nat) (code : Int) (cb ca : Option String)
    (hp : Bool) (cf : Nat)
    (hc : (handle_exit_code mcf code cb ca hp cf).cont = true) :
    (code = 0 ∧
      (handle_exit_code mcf code cb ca hp cf).consecutive_failures = 0) ∨
    (code = 1 ∧ cf + 1 < mcf ∧
      (handle_exit_code mcf code cb ca hp cf).consecutive_failures = cf + 1) := by
  by_cases h0 : code = 0
  · exact Or.inl ⟨h0, by simp [handle_exit_code, h0]⟩
  · by_cases h99 : code = 99
    · rw [h99] at hc
      simp [handle_exit_code] at hc
    · by_cases h1 : code = 1
      · by_cases hm : mcf ≤ cf + 1
        · rw [h1] at hc
          simp [handle_exit_code, hm] at hc
        · exact Or.inr ⟨h1, by omega, by simp [handle_exit_code, h1, hm]⟩
      · simp [handle_exit_code, h0, h99, h1] at hc

/-- The policy stops on exit code 99, on exit code 1 at the escalation
threshold, and on unknown exit codes. -/
theorem handle_cont_false (mcf : Nat) (code : Int) (cb ca : Option String)
    (hp : Bool) (cf : Nat)
    (hc : (handle_exit_code mcf code cb ca hp cf).cont = false) :
    (code = 99 ∧
      (handle_exit_code mcf code cb ca hp cf).consecutive_failures = cf) ∨
    (code = 1 ∧ mcf ≤ cf + 1 ∧
      (handle_exit_code mcf code cb ca hp cf).consecutive_failures = cf + 1) ∨
    (code ≠ 0 ∧ code ≠ 99 ∧ code ≠ 1 ∧
      (handle_exit_code mcf code cb ca hp cf).consecutive_failures = cf) := by
  by_cases h0 : code = 0
  · rw [h0] at hc
    simp [handle_exit_code] at hc
  · by_cases h99 : code = 99
    · exact Or.inl ⟨h99, by simp [handle_exit_code, h0, h99]⟩
    · by_cases h1 : code = 1
      · by_cases hm : mcf ≤ cf + 1
        · exact Or.inr (Or.inl ⟨h1, hm, by simp [handle_exit_code, h1, hm]⟩)
        · rw [h1] at hc
          simp [handle_exit_code, hm] at hc
      · exact Or.inr (Or.inr ⟨h0, h99, h1,
          by simp [handle_exit_code, h0, h99, h1]⟩)

/-- The policy archives feedback exactly on exit code 0 with a moved
commit marker and pending feedback. -/
theorem handle_archived (mcf : Nat) (code : Int) (cb ca : Option String)
    (hp : Bool) (cf : Nat) :
    (handle_exit_code mcf code cb ca hp cf).archived =
      (decide (code = 0) && (cb != ca) && hp) := by
  by_cases h0 : code = 0
  · simp [handle_exit_code, h0]
  · by_cases h1 : code = 1
    · by_cases hm : mcf ≤ cf + 1 <;> simp [handle_exit_code, h0, h1, hm]
    · by_cases h99 : code = 99 <;> simp [handle_exit_code, h0, h99, h1]

/-- The failure counter stays at or below the escalation threshold across
one call of the exit-code policy, provided it was below beforehand. -/
theorem handle_cf_le (mcf : Nat) (code : Int) (cb ca : Option String)
    (hp : Bool) (cf : Nat) (hcf : cf < mcf) :
    (handle_exit_code mcf code cb ca hp cf).consecutive_failures ≤ mcf := by
  by_cases h0 : code = 0
  · rw [h0, handle_cf_zero]
    omega
  · by_cases h1 : code = 1
    · rw [h1, handle_cf_one]
      omega
    · rw [handle_cf_other mcf code cb ca hp cf h0 h1]
      omega

/-- The update rule the consecutive_failures counter follows from one
iteration to the next: unchanged when the exit-code policy did not run
(stop-file exit or circuit-breaker firing), reset to 0 on a processed exit
code 0, incremented by one on a processed exit code 1, and unchanged on
any other processed exit code. -/
def cfStepOk (cfb : Nat) (rec : IterRecord) : Prop :=
  (rec.handled = false → rec.cf_after = cfb) ∧
  (rec.handled = true → rec.exit_code = 0 → rec.cf_after = 0) ∧
  (rec.handled = true → rec.exit_code = 1 → rec.cf_after = cfb + 1) ∧
  (rec.handled = true → rec.exit_code ≠ 0 → rec.exit_code ≠ 1 →
    rec.cf_after = cfb)

/-- Loop invariant for the failure counter: starting below the threshold,
every iteration follows the update rule, the counter never exceeds the
threshold, and the iteration whose counter reaches the threshold is the
last one and terminates the run through the escalation path. -/
theorem runFrom_cf_invariant (cfg : Config) (env : Nat → IterEnv)
    (fuel it cf npc : Nat) (p : Bool)
    (hcf : cf < cfg.max_consecutive_failures) :
    ∀ q ∈ chainPairs IterRecord.cf_after cf
        (runFrom cfg env fuel it cf npc p).iters,
      cfStepOk q.1 q.2 ∧
      q.2.cf_after ≤ cfg.max_consecutive_failures ∧
      (q.2.cf_after = cfg.max_consecutive_failures →
        (runFrom cfg env fuel it cf npc p).outcome = Outcome.escalated ∧
        (runFrom cfg env fuel it cf npc p).iters.getLast? = some q.2) := by
  refine runFrom_rec cfg env
    (fun _ _ cf _ _ r => cf < cfg.max_consecutive_failures →
      ∀ q ∈ chainPairs IterRecord.cf_after cf r.iters,
        cfStepOk q.1 q.2 ∧
        q.2.cf_after ≤ cfg.max_consecutive_failures ∧
        (q.2.cf_after = cfg.max_consecutive_failures →
          r.outcome = Outcome.escalated ∧
          r.iters.getLast? = some q.2))
    ?_ ?_ ?_ ?_ ?_ ?_ fuel it cf npc p hcf
  · intro it cf npc p hcf q hq
    simp [chainPairs] at hq
  · intro fuel it cf npc p pb hpb hstop hcf q hq
    simp only [chainPairs, List.mem_cons, List.not_mem_nil, or_false] at hq
    subst hq
    exact ⟨⟨fun _ => rfl, fun h => Bool.noConfusion h, fun h => Bool.noConfusion h,
      fun h => Bool.noConfusion h⟩, le_of_lt hcf,
      fun hm => absurd hm (ne_of_lt hcf)⟩
  · intro fuel it cf npc p pb code hpb hcode hstop hu hle hcf q hq
    simp only [chainPairs, List.mem_cons, List.not_mem_nil, or_false] at hq
    subst hq
    exact ⟨⟨fun _ => rfl, fun h => Bool.noConfusion h, fun h => Bool.noConfusion h,
      fun h => Bool.noConfusion h⟩, le_of_lt hcf,
      fun hm => absurd hm (ne_of_lt hcf)⟩
  · intro fuel it cf npc p pb code unch npc' h pa hpb hcode hunch hnpc hh hpa
      hstop hncb hcont hcf q hq
    subst hh
    simp only [chainPairs, List.mem_cons, List.not_mem_nil, or_false] at hq
    subst hq
    refine ⟨⟨fun hfalse => Bool.noConfusion hfalse, ?_, ?_, ?_⟩,
      handle_cf_le cfg.max_consecutive_failures code (env (it + 1)).commit_before (env (it + 1)).commit_after pb cf hcf, ?_⟩
    · intro _ hc0
      have hc0' : code = 0 := hc0
      rw [hc0']
      exact handle_cf_zero cfg.max_consecutive_failures (env (it + 1)).commit_before (env (it + 1)).commit_after pb cf
    · intro _ hc1
      have hc1' : code = 1 := hc1
      rw [hc1']
      exact handle_cf_one cfg.max_consecutive_failures (env (it + 1)).commit_before (env (it + 1)).commit_after pb cf
    · intro _ h0 h1
      exact handle_cf_other cfg.max_consecutive_failures code (env (it + 1)).commit_before (env (it + 1)).commit_after pb cf h0 h1
    · intro hm
      have hm' : (handle_exit_code cfg.max_consecutive_failures code
          (env (it + 1)).commit_before (env (it + 1)).commit_after pb
          cf).consecutive_failures = cfg.max_consecutive_failures := hm
      rcases handle_cont_false cfg.max_consecutive_failures code (env (it + 1)).commit_before (env (it + 1)).commit_after pb cf hcont with
        ⟨h99, he⟩ | ⟨h1, hthr, he⟩ | ⟨h0, h99, h1, he⟩
      · rw [he] at hm'
        omega
      · refine ⟨?_, rfl⟩
        subst h1
        norm_num
      · rw [he] at hm'
        omega
  · intro fuel it cf npc p pb code unch npc' h pa hpb hcode hunch hnpc hh hpa
      hstop hncb hcont hmod hcf q hq
    subst hh
    simp only [chainPairs, List.mem_cons, List.not_mem_nil, or_false] at hq
    subst hq
    refine ⟨⟨fun hfalse => Bool.noConfusion hfalse, ?_, ?_, ?_⟩,
      handle_cf_le cfg.max_consecutive_failures code (env (it + 1)).commit_before (env (it + 1)).commit_after pb cf hcf, ?_⟩
    · intro _ hc0
      have hc0' : code = 0 := hc0
      rw [hc0']
      exact handle_cf_zero cfg.max_consecutive_failures (env (it + 1)).commit_before (env (it + 1)).commit_after pb cf
    · intro _ hc1
      have hc1' : code = 1 := hc1
      rw [hc1']
      exact handle_cf_one cfg.max_consecutive_failures (env (it + 1)).commit_before (env (it + 1)).commit_after pb cf
    · intro _ h0 h1
      exact handle_cf_other cfg.max_consecutive_failures code (env (it + 1)).commit_before (env (it + 1)).commit_after pb cf h0 h1
    · intro hm
      exfalso
      have hm' : (handle_exit_code cfg.max_consecutive_failures code
          (env (it + 1)).commit_before (env (it + 1)).commit_after pb
          cf).consecutive_failures = cfg.max_consecutive_failures := hm
      rcases handle_cont_true cfg.max_consecutive_failures code (env (it + 1)).commit_before (env (it + 1)).commit_after pb cf hcont with ⟨_, he⟩ | ⟨_, hlt, he⟩ <;>
        rw [he] at hm' <;> omega
  · intro fuel it cf npc p pb code unch npc' h pa hpb hcode hunch hnpc hh hpa
      hstop hncb hcont hmod ihr hcf q hq
    subst hh
    have hcf' : (handle_exit_code cfg.max_consecutive_failures code
        (env (it + 1)).commit_before (env (it + 1)).commit_after pb
        cf).consecutive_failures < cfg.max_consecutive_failures := by
      rcases handle_cont_true cfg.max_consecutive_failures code (env (it + 1)).commit_before (env (it + 1)).commit_after pb cf hcont with ⟨_, he⟩ | ⟨_, hlt, he⟩ <;>
        rw [he] <;> omega
    simp only [chainPairs, List.mem_cons] at hq
    rcases hq with hq | hq
    · subst hq
      refine ⟨⟨fun hfalse => Bool.noConfusion hfalse, ?_, ?_, ?_⟩,
        handle_cf_le cfg.max_consecutive_failures code (env (it + 1)).commit_before (env (it + 1)).commit_after pb cf hcf, ?_⟩
      · intro _ hc0
        have hc0' : code = 0 := hc0
        rw [hc0']
        exact handle_cf_zero cfg.max_consecutive_failures (env (it + 1)).commit_before (env (it + 1)).commit_after pb cf
      · intro _ hc1
        have hc1' : code = 1 := hc1
        rw [hc1']
        exact handle_cf_one cfg.max_consecutive_failures (env (it + 1)).commit_before (env (it + 1)).commit_after pb cf
      · intro _ h0 h1
        exact handle_cf_other cfg.max_consecutive_failures code (env (it + 1)).commit_before (env (it + 1)).commit_after pb cf h0 h1
      · intro hm
        exact absurd (show (handle_exit_code cfg.max_consecutive_failures code
          (env (it + 1)).commit_before (env (it + 1)).commit_after pb
          cf).consecutive_failures = cfg.max_consecutive_failures from hm)
          (ne_of_lt hcf')
    · obtain ⟨hs, hl, hr⟩ := ihr hcf' q hq
      exact ⟨hs, hl, fun hm => ⟨(hr hm).1, getLast?_cons_eq_some (hr hm).2⟩⟩

/-- C3: for every sequence of agent exit codes, the consecutiveFailures
counter never exceeds max_consecutive_failures: across every iteration it
is reset to 0 on a processed exit code 0, incremented only on exit code 1
and otherwise unchanged, and the iteration in which it reaches
max_consecutive_failures is the last one: the loop terminates through the
escalation path with no further agent invocation. -/
theorem consecutive_failures_bounded (cfg : Config) (env : Nat → IterEnv)
    (p0 : Bool) (hmcf : 1 ≤ cfg.max_consecutive_failures) :
    ∀ q ∈ chainPairs IterRecord.cf_after 0 (run cfg env p0).iters,
      cfStepOk q.1 q.2 ∧
      q.2.cf_after ≤ cfg.max_consecutive_failures ∧
      (q.2.cf_after = cfg.max_consecutive_failures →
        (run cfg env p0).outcome = Outcome.escalated ∧
        (run cfg env p0).iters.getLast? = some q.2) :=
  runFrom_cf_invariant cfg env cfg.max_iterations 0 0 0 p0 (by omega)

/-- The single iteration record of the escalation run used as witness
data: the agent failed once with the threshold at one failure. -/
def escRecord : IterRecord :=
  { iteration := 1, invoked := true, exit_code := 1, unchanged := false,
    handled := true, pending_before := false, pending_after := false,
    archived := false, cf_after := 1, npc_after := 0 }

/-- Witness for consecutive_failures_bounded: with the threshold at one
failure, the first exit 1 drives the counter to the threshold and the run
escalates at that very iteration. -/
theorem consecutive_failures_bounded_witness :
    (run cfgEscalate envFailCommit false).outcome = Outcome.escalated ∧
    (run cfgEscalate envFailCommit false).iters.getLast? = some escRecord :=
  (consecutive_failures_bounded cfgEscalate envFailCommit false (by decide)
    (0, escRecord) (by decide)).2.2 (by decide)

/-- The update rule the noProgressCount counter follows from one iteration
to the next: incremented by one when the agent was invoked and the commit
marker was unchanged (equal before/after, including both absent), reset to
0 when the marker changed, and unchanged on the stop-file exit (no
invocation). -/
def npcStepOk (npcb : Nat) (rec : IterRecord) : Prop :=
  (rec.invoked = true → rec.unchanged = true → rec.npc_after = npcb + 1) ∧
  (rec.invoked = true → rec.unchanged = false → rec.npc_after = 0) ∧
  (rec.invoked = false → rec.npc_after = npcb)

/-- Loop invariant for the no-progress counter: starting below the
threshold, every iteration follows the update rule, the counter never
exceeds the threshold, and the iteration whose counter reaches the
threshold is the last one and terminates the run through the circuit
breaker with exit code 1. -/
theorem runFrom_npc_invariant (cfg : Config) (env : Nat → IterEnv)
    (fuel it cf npc : Nat) (p : Bool) (hnpc : npc < cfg.max_no_progress) :
    ∀ q ∈ chainPairs IterRecord.npc_after npc
        (runFrom cfg env fuel it cf npc p).iters,
      npcStepOk q.1 q.2 ∧
      q.2.npc_after ≤ cfg.max_no_progress ∧
      (q.2.npc_after = cfg.max_no_progress →
        (runFrom cfg env fuel it cf npc p).outcome = Outcome.circuitBreaker ∧
        (runFrom cfg env fuel it cf npc p).exit_code = 1 ∧
        (runFrom cfg env fuel it cf npc p).iters.getLast? = some q.2) := by
  refine runFrom_rec cfg env
    (fun _ _ _ npc _ r => npc < cfg.max_no_progress →
      ∀ q ∈ chainPairs IterRecord.npc_after npc r.iters,
        npcStepOk q.1 q.2 ∧
        q.2.npc_after ≤ cfg.max_no_progress ∧
        (q.2.npc_after = cfg.max_no_progress →
          r.outcome = Outcome.circuitBreaker ∧ r.exit_code = 1 ∧
          r.iters.getLast? = some q.2))
    ?_ ?_ ?_ ?_ ?_ ?_ fuel it cf npc p hnpc
  · intro it cf npc p hnpc q hq
    simp [chainPairs] at hq
  · intro fuel it cf npc p pb hpb hstop hnpc q hq
    simp only [chainPairs, List.mem_cons, List.not_mem_nil, or_false] at hq
    subst hq
    exact ⟨⟨fun h => Bool.noConfusion h, fun h => Bool.noConfusion h,
      fun _ => rfl⟩, le_of_lt hnpc, fun hm => absurd hm (ne_of_lt hnpc)⟩
  · intro fuel it cf npc p pb code hpb hcode hstop hu hle hnpc q hq
    simp only [chainPairs, List.mem_cons, List.not_mem_nil, or_false] at hq
    subst hq
    exact ⟨⟨fun _ _ => rfl, fun _ h => Bool.noConfusion h,
      fun h => Bool.noConfusion h⟩,
      (by omega : npc + 1 ≤ cfg.max_no_progress),
      fun _ => ⟨rfl, rfl, rfl⟩⟩
  · intro fuel it cf npc p pb code unch npc' h pa hpb hcode hunch hnpc' hpa
      hh hstop hncb hcont hnpc q hq
    subst hh
    simp only [chainPairs, List.mem_cons, List.not_mem_nil, or_false] at hq
    subst hq
    refine ⟨⟨?_, ?_, fun hfalse => Bool.noConfusion hfalse⟩, ?_, ?_⟩
    · intro _ hu
      have hu' : unch = true := hu
      show npc' = npc + 1
      rw [hnpc', if_pos hu']
    · intro _ hu
      have hu' : unch = false := hu
      show npc' = 0
      rw [hnpc', if_neg (by simp [hu'])]
    · show npc' ≤ cfg.max_no_progress
      by_cases hu : unch = true
      · have hlt : ¬cfg.max_no_progress ≤ npc' := fun hc => hncb ⟨hu, hc⟩
        omega
      · rw [hnpc', if_neg hu]
        omega
    · intro hm
      exfalso
      have hm' : npc' = cfg.max_no_progress := hm
      by_cases hu : unch = true
      · exact hncb ⟨hu, le_of_eq hm'.symm⟩
      · rw [hnpc', if_neg hu] at hm'
        omega
  · intro fuel it cf npc p pb code unch npc' h pa hpb hcode hunch hnpc' hpa
      hh hstop hncb hcont hmod hnpc q hq
    subst hh
    simp only [chainPairs, List.mem_cons, List.not_mem_nil, or_false] at hq
    subst hq
    refine ⟨⟨?_, ?_, fun hfalse => Bool.noConfusion hfalse⟩, ?_, ?_⟩
    · intro _ hu
      have hu' : unch = true := hu
      show npc' = npc + 1
      rw [hnpc', if_pos hu']
    · intro _ hu
      have hu' : unch = false := hu
      show npc' = 0
      rw [hnpc', if_neg (by simp [hu'])]
    · show npc' ≤ cfg.max_no_progress
      by_cases hu : unch = true
      · have hlt : ¬cfg.max_no_progress ≤ npc' := fun hc => hncb ⟨hu, hc⟩
        omega
      · rw [hnpc', if_neg hu]
        omega
    · intro hm
      exfalso
      have hm' : npc' = cfg.max_no_progress := hm
      by_cases hu : unch = true
      · exact hncb ⟨hu, le_of_eq hm'.symm⟩
      · rw [hnpc', if_neg hu] at hm'
        omega
  · intro fuel it cf npc p pb code unch npc' h pa hpb hcode hunch hnpc' hpa
      hh hstop hncb hcont hmod ihr hnpc q hq
    subst hh
    have hnpc'' : npc' < cfg.max_no_progress := by
      by_cases hu : unch = true
      · have hlt : ¬cfg.max_no_progress ≤ npc' := fun hc => hncb ⟨hu, hc⟩
        omega
      · rw [hnpc', if_neg hu]
        omega
    simp only [chainPairs, List.mem_cons] at hq
    rcases hq with hq | hq
    · subst hq
      refine ⟨⟨?_, ?_, fun hfalse => Bool.noConfusion hfalse⟩, le_of_lt hnpc'',
        fun hm => absurd (show npc' = cfg.max_no_progress from hm)
          (ne_of_lt hnpc'')⟩
      · intro _ hu
        have hu' : unch = true := hu
        show npc' = npc + 1
        rw [hnpc', if_pos hu']
      · intro _ hu
        have hu' : unch = false := hu
        show npc' = 0
        rw [hnpc', if_neg (by simp [hu'])]
    · obtain ⟨hs, hl, hr⟩ := ihr hnpc'' q hq
      exact ⟨hs, hl, fun hm => ⟨(hr hm).1, (hr hm).2.1,
        getLast?_cons_eq_some (hr hm).2.2⟩⟩

/-- In an environment with no stop file, an agent that always exits 0 and
a commit marker that never moves, the loop terminates through the circuit
breaker after exactly the remaining distance to the no-progress threshold,
with no checkpoint boundary intervening before that. -/
theorem runFrom_no_progress_run (cfg : Config) (env : Nat → IterEnv)
    (henv : ∀ j, (env j).stop_file = false ∧ (env j).launch = some 0 ∧
      (env j).commit_before = (env j).commit_after)
    (fuel it cf npc : Nat) (p : Bool) (hlt : npc < cfg.max_no_progress)
    (hfuel : cfg.max_no_progress - npc ≤ fuel)
    (hcp : ∀ j, it < j → j < it + (cfg.max_no_progress - npc) →
      j % cfg.checkpoint_interval ≠ 0) :
    (runFrom cfg env fuel it cf npc p).exit_code = 1 ∧
    (runFrom cfg env fuel it cf npc p).outcome = Outcome.circuitBreaker ∧
    (runFrom cfg env fuel it cf npc p).invocations =
      cfg.max_no_progress - npc := by
  refine runFrom_rec cfg env
    (fun fuel it _ npc _ r => npc < cfg.max_no_progress →
      cfg.max_no_progress - npc ≤ fuel →
      (∀ j, it < j → j < it + (cfg.max_no_progress - npc) →
        j % cfg.checkpoint_interval ≠ 0) →
      r.exit_code = 1 ∧ r.outcome = Outcome.circuitBreaker ∧
      r.invocations = cfg.max_no_progress - npc)
    ?_ ?_ ?_ ?_ ?_ ?_ fuel it cf npc p hlt hfuel hcp
  · intro it cf npc p hlt hfuel hcp
    omega
  · intro fuel it cf npc p pb hpb hstop hlt hfuel hcp
    exact absurd hstop (by simp [(henv (it + 1)).1])
  · intro fuel it cf npc p pb code hpb hcode hstop hu hle hlt hfuel hcp
    refine ⟨rfl, rfl, ?_⟩
    simp only [RunResult.invocations, List.filter, List.length]
    omega
  · intro fuel it cf npc p pb code unch npc' h pa hpb hcode hunch hnpc' hh hpa
      hstop hncb hcont hlt hfuel hcp
    exfalso
    have hcode0 : code = 0 := by
      rw [hcode, (henv (it + 1)).2.1]
      rfl
    rw [hh, hcode0] at hcont
    simp [handle_exit_code] at hcont
  · intro fuel it cf npc p pb code unch npc' h pa hpb hcode hunch hnpc' hh hpa
      hstop hncb hcont hmod hlt hfuel hcp
    exfalso
    have hu : unch = true := by
      rw [hunch]
      exact beq_iff_eq.mpr (henv (it + 1)).2.2
    have hnp1 : npc' = npc + 1 := by
      rw [hnpc', if_pos hu]
    have hgap : npc + 1 < cfg.max_no_progress := by
      rcases Nat.lt_or_ge (npc + 1) cfg.max_no_progress with hx | hx
      · exact hx
      · exact absurd ⟨hu, by omega⟩ hncb
    exact hcp (it + 1) (by omega) (by omega) hmod
  · intro fuel it cf npc p pb code unch npc' h pa hpb hcode hunch hnpc' hh hpa
      hstop hncb hcont hmod ihr hlt hfuel hcp
    have hu : unch = true := by
      rw [hunch]
      exact beq_iff_eq.mpr (henv (it + 1)).2.2
    have hnp1 : npc' = npc + 1 := by
      rw [hnpc', if_pos hu]
    have hgap : npc + 1 < cfg.max_no_progress := by
      rcases Nat.lt_or_ge (npc + 1) cfg.max_no_progress with hx | hx
      · exact hx
      · exact absurd ⟨hu, by omega⟩ hncb
    have hih := ihr (by omega) (by omega) ?hcp'
    case hcp' =>
      intro j hj1 hj2
      exact hcp j (by omega) (by omega)
    refine ⟨hih.1, hih.2.1, ?_⟩
    have hinv := hih.2.2
    simp [RunResult.invocations, List.filter_cons] at hinv ⊢
    omega

/-- C4: whenever the agent is invoked with an unchanged progress marker,
noProgressCount increases by exactly one, and it is reset to 0 whenever the
marker changes; it never exceeds max_no_progress, and the iteration in
which it reaches max_no_progress is the last one: the loop terminates with
the circuit-breaker outcome and exit code 1 and never invokes the agent
again.  In particular, in a run where the marker is unchanged in every
iteration (and nothing else stops the loop first), the loop terminates
through the circuit breaker after exactly max_no_progress invocations. -/
theorem no_progress_circuit_breaker (cfg : Config) (env : Nat → IterEnv)
    (p0 : Bool) (hmnp : 1 ≤ cfg.max_no_progress) :
    (∀ q ∈ chainPairs IterRecord.npc_after 0 (run cfg env p0).iters,
      npcStepOk q.1 q.2 ∧
      q.2.npc_after ≤ cfg.max_no_progress ∧
      (q.2.npc_after = cfg.max_no_progress →
        (run cfg env p0).outcome = Outcome.circuitBreaker ∧
        (run cfg env p0).exit_code = 1 ∧
        (run cfg env p0).iters.getLast? = some q.2)) ∧
    ((∀ j, (env j).stop_file = false ∧ (env j).launch = some 0 ∧
        (env j).commit_before = (env j).commit_after) →
      cfg.max_no_progress ≤ cfg.max_iterations →
      cfg.max_no_progress ≤ cfg.checkpoint_interval →
      (run cfg env p0).exit_code = 1 ∧
      (run cfg env p0).outcome = Outcome.circuitBreaker ∧
      (run cfg env p0).invocations = cfg.max_no_progress) := by
  constructor
  · exact runFrom_npc_invariant cfg env cfg.max_iterations 0 0 0 p0 (by omega)
  · intro henv hmi hci
    have hrun := runFrom_no_progress_run cfg env henv cfg.max_iterations 0 0 0
      p0 (by omega) (by omega) (fun j hj1 hj2 => by
        rw [Nat.mod_eq_of_lt (by omega)]
        omega)
    rw [Nat.sub_zero] at hrun
    exact hrun

/-- The default configuration of config.py: 50 iterations, checkpoint
every 10, both circuit-breaker thresholds at 3. -/
def cfgBreaker : Config :=
  { max_iterations := 50, checkpoint_interval := 10, max_no_progress := 3,
    max_consecutive_failures := 3 }

/-- Witness for no_progress_circuit_breaker: with the default thresholds,
an always-successful agent that never commits trips the breaker after
exactly three invocations. -/
theorem no_progress_circuit_breaker_witness :
    (run cfgBreaker envNoCommit false).exit_code = 1 ∧
    (run cfgBreaker envNoCommit false).outcome = Outcome.circuitBreaker ∧
    (run cfgBreaker envNoCommit false).invocations = 3 :=
  (no_progress_circuit_breaker cfgBreaker envNoCommit false (by decide)).2
    (fun _ => ⟨rfl, rfl, rfl⟩) (by decide) (by decide)

/-- In an environment with no stop file, an agent that always exits 0 and
a commit marker that moves every iteration, a loop whose checkpoint
interval is 10 pauses exactly at iteration 10: it runs 10 - it more
iterations, exits with code 2 through the checkpoint path, its last state
write is the STOPPED/PENDING snapshot of iteration 10, and that is its
only STOPPED write. -/
theorem runFrom_checkpoint_run (cfg : Config) (env : Nat → IterEnv)
    (hci : cfg.checkpoint_interval = 10)
    (henv : ∀ j, (env j).stop_file = false ∧ (env j).launch = some 0 ∧
      (env j).commit_before ≠ (env j).commit_after) :
    ∀ fuel it cf npc p, it < 10 → 10 - it ≤ fuel →
      (runFrom cfg env fuel it cf npc p).exit_code = 2 ∧
      (runFrom cfg env fuel it cf npc p).outcome = Outcome.checkpoint ∧
      (runFrom cfg env fuel it cf npc p).invocations = 10 - it ∧
      (runFrom cfg env fuel it cf npc p).writes.getLast? =
        some ⟨RunStatus.stopped, 10, TaskStatus.pending⟩ ∧
      ((runFrom cfg env fuel it cf npc p).writes.countP
        (fun w => w.status == RunStatus.stopped)) = 1 := by
  intro fuel it cf npc p
  refine runFrom_rec cfg env
    (fun fuel it _ _ _ r => it < 10 → 10 - it ≤ fuel →
      r.exit_code = 2 ∧ r.outcome = Outcome.checkpoint ∧
      r.invocations = 10 - it ∧
      r.writes.getLast? = some ⟨RunStatus.stopped, 10, TaskStatus.pending⟩ ∧
      (r.writes.countP (fun w => w.status == RunStatus.stopped)) = 1)
    ?_ ?_ ?_ ?_ ?_ ?_ fuel it cf npc p
  · intro it cf npc p h1 h2
    omega
  · intro fuel it cf npc p pb hpb hstop h1 h2
    exact absurd hstop (by simp [(henv (it + 1)).1])
  · intro fuel it cf npc p pb code hpb hcode hstop hu hle h1 h2
    exact absurd (beq_iff_eq.mp hu) (henv (it + 1)).2.2
  · intro fuel it cf npc p pb code unch npc' h pa hpb hcode hunch hnpc' hh hpa
      hstop hncb hcont h1 h2
    exfalso
    have hcode0 : code = 0 := by
      rw [hcode, (henv (it + 1)).2.1]
      rfl
    rw [hh, hcode0] at hcont
    simp [handle_exit_code] at hcont
  · intro fuel it cf npc p pb code unch npc' h pa hpb hcode hunch hnpc' hh hpa
      hstop hncb hcont hmod h1 h2
    rw [hci] at hmod
    have hit : it = 9 := by omega
    subst hit
    refine ⟨rfl, rfl, ?_, rfl, ?_⟩
    · simp [RunResult.invocations]
    · simp [List.countP_cons]
  · intro fuel it cf npc p pb code unch npc' h pa hpb hcode hunch hnpc' hh hpa
      hstop hncb hcont hmod ihr h1 h2
    rw [hci] at hmod
    have hlt10 : it + 1 < 10 := by omega
    obtain ⟨he, ho, hi, hl, hc⟩ := ihr hlt10 (by omega)
    refine ⟨he, ho, ?_, getLast?_cons_eq_some hl, ?_⟩
    · simp only [RunResult.invocations] at hi
      simp [RunResult.invocations, List.filter_cons]
      omega
    · simp [List.countP_cons]
      omega

/-- C5: with checkpoint_interval 10 and every iteration continuing (the
agent exits 0, the commit marker moves, no stop file), the loop pauses for
checkpoint exactly once over iterations 1..10: at iteration 10 and never
at 1..9 (it performs all ten invocations before pausing), persisting a
STOPPED/PENDING snapshot as its final and only STOPPED write, and
terminating run with exit code 2. -/
theorem checkpoint_fires_exactly_at_ten (cfg : Config) (env : Nat → IterEnv)
    (p0 : Bool) (hci : cfg.checkpoint_interval = 10)
    (hmi : 10 ≤ cfg.max_iterations)
    (henv : ∀ j, (env j).stop_file = false ∧ (env j).launch = some 0 ∧
      (env j).commit_before ≠ (env j).commit_after) :
    (run cfg env p0).exit_code = 2 ∧
    (run cfg env p0).outcome = Outcome.checkpoint ∧
    (run cfg env p0).invocations = 10 ∧
    (run cfg env p0).writes.getLast? =
      some ⟨RunStatus.stopped, 10, TaskStatus.pending⟩ ∧
    ((run cfg env p0).writes.countP
      (fun w => w.status == RunStatus.stopped)) = 1 := by
  have h := runFrom_checkpoint_run cfg env hci henv cfg.max_iterations 0 0 0 p0
    (by omega) (by omega)
  rw [Nat.sub_zero] at h
  exact h

/-- Configuration with max_iterations exactly 10 and the default
checkpoint interval. -/
def cfgCheckpoint : Config :=
  { max_iterations := 10, checkpoint_interval := 10, max_no_progress := 3,
    max_consecutive_failures := 3 }

/-- Environment in which the agent exits 0 and commits every iteration. -/
def envProgress : Nat → IterEnv := fun _ =>
  { stop_file := false, posted := false, commit_before := some "a",
    launch := some 0, commit_after := some "b" }

/-- Witness for checkpoint_fires_exactly_at_ten on a concrete run. -/
theorem checkpoint_fires_exactly_at_ten_witness :
    (run cfgCheckpoint envProgress false).exit_code = 2 ∧
    (run cfgCheckpoint envProgress false).outcome = Outcome.checkpoint ∧
    (run cfgCheckpoint envProgress false).invocations = 10 ∧
    (run cfgCheckpoint envProgress false).writes.getLast? =
      some ⟨RunStatus.stopped, 10, TaskStatus.pending⟩ ∧
    ((run cfgCheckpoint envProgress false).writes.countP
      (fun w => w.status == RunStatus.stopped)) = 1 :=
  checkpoint_fires_exactly_at_ten cfgCheckpoint envProgress false rfl
    (by decide)
    (fun _ => ⟨rfl, rfl, (by decide : (some "a" : Option String) ≠ some "b")⟩)

/-- Per-iteration archiving rule over a whole run, stated on runFrom. -/
theorem runFrom_archive_iff (cfg : Config) (env : Nat → IterEnv)
    (fuel it cf npc : Nat) (p : Bool) :
    ∀ rec ∈ (runFrom cfg env fuel it cf npc p).iters,
      (rec.archived = true ↔ rec.invoked = true ∧ rec.exit_code = 0 ∧
        rec.unchanged = false ∧ rec.pending_before = true) ∧
      (rec.archived = false → rec.pending_after = rec.pending_before) := by
  refine runFrom_rec cfg env
    (fun _ _ _ _ _ r =>
      ∀ rec ∈ r.iters,
        (rec.archived = true ↔ rec.invoked = true ∧ rec.exit_code = 0 ∧
          rec.unchanged = false ∧ rec.pending_before = true) ∧
        (rec.archived = false → rec.pending_after = rec.pending_before))
    ?_ ?_ ?_ ?_ ?_ ?_ fuel it cf npc p
  · intro it cf npc p rec hrec
    simp at hrec
  · intro fuel it cf npc p pb hpb hstop rec hrec
    simp only [List.mem_singleton] at hrec
    subst hrec
    exact ⟨⟨fun hfalse => Bool.noConfusion hfalse,
      fun hc => Bool.noConfusion hc.1⟩, fun _ => rfl⟩
  · intro fuel it cf npc p pb code hpb hcode hstop hu hle rec hrec
    simp only [List.mem_singleton] at hrec
    subst hrec
    exact ⟨⟨fun hfalse => Bool.noConfusion hfalse,
      fun hc => Bool.noConfusion hc.2.2.1⟩, fun _ => rfl⟩
  · intro fuel it cf npc p pb code unch npc' h pa hpb hcode hunch hnpc' hh hpa
      hstop hncb hcont rec hrec
    subst hh
    simp only [List.mem_singleton] at hrec
    subst hrec
    constructor
    · constructor
      · intro ha
        have ha' : (handle_exit_code cfg.max_consecutive_failures code
            (env (it + 1)).commit_before (env (it + 1)).commit_after pb
            cf).archived = true := ha
        rw [handle_archived] at ha'
        simp only [Bool.and_eq_true, decide_eq_true_eq, bne_iff_ne] at ha'
        refine ⟨rfl, ha'.1.1, ?_, ha'.2⟩
        show unch = false
        rw [hunch]
        exact beq_eq_false_iff_ne.mpr ha'.1.2
      · rintro ⟨_, hc0, hunf, hpbt⟩
        have hc0' : code = 0 := hc0
        have hunf' : unch = false := hunf
        have hne : ((env (it + 1)).commit_before ==
            (env (it + 1)).commit_after) = false := by
          rw [← hunch]
          exact hunf'
        have hpbt' : pb = true := hpbt
        show (handle_exit_code cfg.max_consecutive_failures code
          (env (it + 1)).commit_before (env (it + 1)).commit_after pb
          cf).archived = true
        rw [handle_archived, hc0', hpbt']
        simp [bne, hne]
    · intro ha
      have ha' : (handle_exit_code cfg.max_consecutive_failures code
          (env (it + 1)).commit_before (env (it + 1)).commit_after pb
          cf).archived = false := ha
      show pa = pb
      rw [hpa, if_neg (by simp [ha'])]
  · intro fuel it cf npc p pb code unch npc' h pa hpb hcode hunch hnpc' hh hpa
      hstop hncb hcont hmod rec hrec
    subst hh
    simp only [List.mem_singleton] at hrec
    subst hrec
    constructor
    · constructor
      · intro ha
        have ha' : (handle_exit_code cfg.max_consecutive_failures code
            (env (it + 1)).commit_before (env (it + 1)).commit_after pb
            cf).archived = true := ha
        rw [handle_archived] at ha'
        simp only [Bool.and_eq_true, decide_eq_true_eq, bne_iff_ne] at ha'
        refine ⟨rfl, ha'.1.1, ?_, ha'.2⟩
        show unch = false
        rw [hunch]
        exact beq_eq_false_iff_ne.mpr ha'.1.2
      · rintro ⟨_, hc0, hunf, hpbt⟩
        have hc0' : code = 0 := hc0
        have hunf' : unch = false := hunf
        have hne : ((env (it + 1)).commit_before ==
            (env (it + 1)).commit_after) = false := by
          rw [← hunch]
          exact hunf'
        have hpbt' : pb = true := hpbt
        show (handle_exit_code cfg.max_consecutive_failures code
          (env (it + 1)).commit_before (env (it + 1)).commit_after pb
          cf).archived = true
        rw [handle_archived, hc0', hpbt']
        simp [bne, hne]
    · intro ha
      have ha' : (handle_exit_code cfg.max_consecutive_failures code
          (env (it + 1)).commit_before (env (it + 1)).commit_after pb
          cf).archived = false := ha
      show pa = pb
      rw [hpa, if_neg (by simp [ha'])]
  · intro fuel it cf npc p pb code unch npc' h pa hpb hcode hunch hnpc' hh hpa
      hstop hncb hcont hmod ihr rec hrec
    subst hh
    simp only [List.mem_cons] at hrec
    rcases hrec with hrec | hrec
    · subst hrec
      constructor
      · constructor
        · intro ha
          have ha' : (handle_exit_code cfg.max_consecutive_failures code
              (env (it + 1)).commit_before (env (it + 1)).commit_after pb
              cf).archived = true := ha
          rw [handle_archived] at ha'
          simp only [Bool.and_eq_true, decide_eq_true_eq, bne_iff_ne] at ha'
          refine ⟨rfl, ha'.1.1, ?_, ha'.2⟩
          show unch = false
          rw [hunch]
          exact beq_eq_false_iff_ne.mpr ha'.1.2
        · rintro ⟨_, hc0, hunf, hpbt⟩
          have hc0' : code = 0 := hc0
          have hunf' : unch = false := hunf
          have hne : ((env (it + 1)).commit_before ==
              (env (it + 1)).commit_after) = false := by
            rw [← hunch]
            exact hunf'
          have hpbt' : pb = true := hpbt
          show (handle_exit_code cfg.max_consecutive_failures code
            (env (it + 1)).commit_before (env (it + 1)).commit_after pb
            cf).archived = true
          rw [handle_archived, hc0', hpbt']
          simp [bne, hne]
      · intro ha
        have ha' : (handle_exit_code cfg.max_consecutive_failures code
            (env (it + 1)).commit_before (env (it + 1)).commit_after pb
            cf).archived = false := ha
        show pa = pb
        rw [hpa, if_neg (by simp [ha'])]
    · exact ihr rec hrec

/-- C8: an iteration archives the pending feedback log exactly when the
agent exit code was 0, the commit marker changed during the iteration, and
feedback was pending before the agent invocation; whenever any of the
three conditions fails the pending flag after the iteration equals the
flag before it, so the pending feedback file remains in place for the next
iteration. -/
theorem archive_exactly_on_success_commit_pending (cfg : Config)
    (env : Nat → IterEnv) (p0 : Bool) :
    ∀ rec ∈ (run cfg env p0).iters,
      (rec.archived = true ↔ rec.invoked = true ∧ rec.exit_code = 0 ∧
        rec.unchanged = false ∧ rec.pending_before = true) ∧
      (rec.archived = false → rec.pending_after = rec.pending_before) :=
  runFrom_archive_iff cfg env cfg.max_iterations 0 0 0 p0

/-- Configuration that runs a single iteration. -/
def cfgOneIteration : Config :=
  { max_iterations := 1, checkpoint_interval := 10, max_no_progress := 3,
    max_consecutive_failures := 3 }

/-- Environment in which a human posts feedback, the agent exits 0 and a
commit is produced. -/
def envFeedbackCommit : Nat → IterEnv := fun _ =>
  { stop_file := false, posted := true, commit_before := some "a",
    launch := some 0, commit_after := some "b" }

/-- The iteration record of that run: feedback pending before the
invocation, success with a commit, hence archived. -/
def archiveRecord : IterRecord :=
  { iteration := 1, invoked := true, exit_code := 0, unchanged := false,
    handled := true, pending_before := true, pending_after := false,
    archived := true, cf_after := 0, npc_after := 0 }

/-- Witness for archive_exactly_on_success_commit_pending: the success,
commit and pending conditions force the archive on a concrete run. -/
theorem archive_exactly_witness : archiveRecord.archived = true :=
  (archive_exactly_on_success_commit_pending cfgOneIteration envFeedbackCommit
    false archiveRecord (by decide)).1.mpr ⟨rfl, rfl, rfl, rfl⟩

/-- In an environment with no stop file, an agent launch that always
raises file-not-found and a commit marker that never moves, the loop keeps
retrying and terminates through escalation after exactly the remaining
distance to the failure threshold, provided the no-progress threshold and
checkpoint boundaries lie beyond it. -/
theorem runFrom_escalation_run (cfg : Config) (env : Nat → IterEnv)
    (henv : ∀ j, (env j).stop_file = false ∧ (env j).launch = none ∧
      (env j).commit_before = (env j).commit_after) :
    ∀ fuel it cf npc p, cf < cfg.max_consecutive_failures →
      cfg.max_consecutive_failures - cf ≤ fuel →
      npc + (cfg.max_consecutive_failures - cf) < cfg.max_no_progress →
      (∀ j, it < j → j < it + (cfg.max_consecutive_failures - cf) →
        j % cfg.checkpoint_interval ≠ 0) →
      (runFrom cfg env fuel it cf npc p).exit_code = 1 ∧
      (runFrom cfg env fuel it cf npc p).outcome = Outcome.escalated ∧
      (runFrom cfg env fuel it cf npc p).invocations =
        cfg.max_consecutive_failures - cf := by
  intro fuel it cf npc p
  refine runFrom_rec cfg env
    (fun fuel it cf npc _ r => cf < cfg.max_consecutive_failures →
      cfg.max_consecutive_failures - cf ≤ fuel →
      npc + (cfg.max_consecutive_failures - cf) < cfg.max_no_progress →
      (∀ j, it < j → j < it + (cfg.max_consecutive_failures - cf) →
        j % cfg.checkpoint_interval ≠ 0) →
      r.exit_code = 1 ∧ r.outcome = Outcome.escalated ∧
      r.invocations = cfg.max_consecutive_failures - cf)
    ?_ ?_ ?_ ?_ ?_ ?_ fuel it cf npc p
  · intro it cf npc p h1 h2 h3 h4
    omega
  · intro fuel it cf npc p pb hpb hstop h1 h2 h3 h4
    exact absurd hstop (by simp [(henv (it + 1)).1])
  · intro fuel it cf npc p pb code hpb hcode hstop hu hle h1 h2 h3 h4
    exact absurd hle (by omega)
  · intro fuel it cf npc p pb code unch npc' h pa hpb hcode hunch hnpc' hh hpa
      hstop hncb hcont h1 h2 h3 h4
    have hcode1 : code = 1 := by
      rw [hcode, (henv (it + 1)).2.1]
      rfl
    rw [hh] at hcont
    rcases handle_cont_false cfg.max_consecutive_failures code
        (env (it + 1)).commit_before (env (it + 1)).commit_after pb cf hcont
      with ⟨h99, he⟩ | ⟨hc1, hthr, he⟩ | ⟨hc0, h99, hc1, he⟩
    · rw [hcode1] at h99
      exact absurd h99 (by decide)
    · have hcf1 : cf + 1 = cfg.max_consecutive_failures := by omega
      refine ⟨?_, ?_, ?_⟩
      · show (if code = 0 ∨ code = 99 then 0 else code) = 1
        rw [hcode1]
        norm_num
      · show (if code = 99 then Outcome.projectComplete
          else if code = 1 then Outcome.escalated else Outcome.unknownExit) =
          Outcome.escalated
        rw [hcode1]
        norm_num
      · simp [RunResult.invocations]
        omega
    · rw [hcode1] at hc1
      exact absurd hc1 (by simp)
  · intro fuel it cf npc p pb code unch npc' h pa hpb hcode hunch hnpc' hh hpa
      hstop hncb hcont hmod h1 h2 h3 h4
    exfalso
    have hcode1 : code = 1 := by
      rw [hcode, (henv (it + 1)).2.1]
      rfl
    rw [hh] at hcont
    rcases handle_cont_true cfg.max_consecutive_failures code
        (env (it + 1)).commit_before (env (it + 1)).commit_after pb cf hcont
      with ⟨hc0, _⟩ | ⟨_, hlt, _⟩
    · rw [hcode1] at hc0
      exact absurd hc0 (by decide)
    · exact h4 (it + 1) (by omega) (by omega) hmod
  · intro fuel it cf npc p pb code unch npc' h pa hpb hcode hunch hnpc' hh hpa
      hstop hncb hcont hmod ihr h1 h2 h3 h4
    have hcode1 : code = 1 := by
      rw [hcode, (henv (it + 1)).2.1]
      rfl
    rw [hh] at hcont
    rcases handle_cont_true cfg.max_consecutive_failures code
        (env (it + 1)).commit_before (env (it + 1)).commit_after pb cf hcont
      with ⟨hc0, _⟩ | ⟨_, hlt, hcfe⟩
    · rw [hcode1] at hc0
      exact absurd hc0 (by decide)
    · have hu : unch = true := by
        rw [hunch]
        exact beq_iff_eq.mpr (henv (it + 1)).2.2
      have hnp1 : npc' = npc + 1 := by
        rw [hnpc', if_pos hu]
      have hcf' : h.consecutive_failures = cf + 1 := by
        rw [hh]
        exact hcfe
      rw [hh] at ihr ⊢
      rw [hcfe] at ihr ⊢
      have hih := ihr (by omega) (by omega) (by omega) ?hcp'
      case hcp' =>
        intro j hj1 hj2
        exact h4 j (by omega) (by omega)
      refine ⟨hih.1, hih.2.1, ?_⟩
      have hinv := hih.2.2
      simp only [RunResult.invocations] at hinv
      simp [RunResult.invocations, List.filter_cons]
      omega

/-- C10: a missing agent binary (launch raises file-not-found) is reported
by run_codex as exit code 1 and is therefore treated by the exit-code
policy as a recoverable single-iteration failure: with the binary missing
every iteration, the loop keeps retrying and terminates Escalated (exit
code 1) only after exactly max_consecutive_failures invocations, rather
than stopping immediately as an unknown fatal exit code would. -/
theorem missing_agent_binary_recoverable (cfg : Config) (env : Nat → IterEnv)
    (p0 : Bool)
    (henv : ∀ j, (env j).stop_file = false ∧ (env j).launch = none ∧
      (env j).commit_before = (env j).commit_after)
    (hmcf : 1 ≤ cfg.max_consecutive_failures)
    (hlt : cfg.max_consecutive_failures < cfg.max_no_progress)
    (hmi : cfg.max_consecutive_failures ≤ cfg.max_iterations)
    (hci : cfg.max_consecutive_failures ≤ cfg.checkpoint_interval) :
    run_codex none = 1 ∧
    (run cfg env p0).exit_code = 1 ∧
    (run cfg env p0).outcome = Outcome.escalated ∧
    (run cfg env p0).invocations = cfg.max_consecutive_failures := by
  have h := runFrom_escalation_run cfg env henv cfg.max_iterations 0 0 0 p0
    (by omega) (by omega) (by omega) (fun j hj1 hj2 => by
      rw [Nat.mod_eq_of_lt (by omega)]
      omega)
  rw [Nat.sub_zero] at h
  exact ⟨rfl, h⟩

/-- Configuration for the missing-binary scenario: failure threshold 3,
no-progress threshold 5. -/
def cfgMissing : Config :=
  { max_iterations := 50, checkpoint_interval := 10, max_no_progress := 5,
    max_consecutive_failures := 3 }

/-- Environment in which launching the agent raises file-not-found every
iteration and no commit is ever produced. -/
def envMissingBinary : Nat → IterEnv := fun _ =>
  { stop_file := false, posted := false, commit_before := none,
    launch := none, commit_after := none }

/-- Witness for missing_agent_binary_recoverable on a concrete run. -/
theorem missing_agent_binary_recoverable_witness :
    run_codex none = 1 ∧
    (run cfgMissing envMissingBinary false).exit_code = 1 ∧
    (run cfgMissing envMissingBinary false).outcome = Outcome.escalated ∧
    (run cfgMissing envMissingBinary false).invocations = 3 :=
  missing_agent_binary_recoverable cfgMissing envMissingBinary false
    (fun _ => ⟨rfl, rfl, rfl⟩) (by decide) (by decide) (by decide) (by decide)

/-! ## State store: save/load round trip and write atomicity -/

/-- The snapshot named by the round-trip property: status running,
iteration 5 of 50, 1200 lines over 10 files, task "Implement auth" in
progress. -/
def roundTripState : State :=
  { status := .running,
    iteration := { current := 5, specified := 50 },
    code_metrics := { total_lines := 1200, file_count := 10 },
    current_task := { description := "Implement auth", status := .in_progress },
    last_output := "Iteration 5 starting...",
    timestamp := "2026-10-12T08:00:00" }

/-- C6: State.save followed by State.load on the same path round-trips the
snapshot with status running, iteration 5 of 50, code metrics 1200 lines
over 10 files and current task "Implement auth" in progress: load returns
a state equal to the saved one in every field. -/
theorem save_load_round_trip :
    State.load "2026-10-12T09:00:00" (State.save roundTripState) =
      some roundTripState := by
  decide

/-- C7: when no pending feedback file exists, archive_feedback returns
none, does not fail, and creates no archive file, so archiving an empty
store any number of times leaves the store unchanged. -/
theorem archive_feedback_empty (fs : FeedbackStore) (ts : String)
    (h : fs.pending = none) :
    FeedbackStore.archive_feedback ts fs = (none, fs) ∧
    ∀ n : Nat, (fun g => (FeedbackStore.archive_feedback ts g).2)^[n] fs = fs := by
  have hstep : FeedbackStore.archive_feedback ts fs = (none, fs) := by
    simp [FeedbackStore.archive_feedback, h]
  refine ⟨hstep, ?_⟩
  intro n
  induction n with
  | zero => rfl
  | succ k ih =>
      rw [Function.iterate_succ_apply]
      simpa [hstep] using ih

/-- Witness for archive_feedback_empty at the empty store. -/
theorem archive_feedback_empty_witness :
    FeedbackStore.archive_feedback "20261012-000000" ⟨none, []⟩ =
      (none, (⟨none, []⟩ : FeedbackStore)) :=
  (archive_feedback_empty ⟨none, []⟩ "20261012-000000" rfl).1

/-- The sequence of contents the state file passes through during one call
of State.save, in source order: the source opens the path with mode "w",
which truncates the file in place to length zero, and then json.dump
streams the serialized document into it; there is no temporary file and no
atomic replace.  As elsewhere, file contents are an optional complete JSON
document; none stands for contents that are not a complete document, which
is what the truncated file holds between the open and the finished dump. -/
def saveContentsTrace (old : Option Json) (s : State) : List (Option Json) :=
  [old, none, some s.dump]

/-- The snapshot on disk before the save used in the atomicity
counterexample. -/
def snapshotBefore : State :=
  { status := .running,
    iteration := { current := 4, specified := 50 },
    code_metrics := { total_lines := 1100, file_count := 9 },
    current_task := { description := "Implement auth", status := .in_progress },
    last_output := "Iteration 4 starting...",
    timestamp := "2026-10-12T07:00:00" }

/-- C9 counterexample: during State.save of the iteration-5 snapshot over
the iteration-4 snapshot, the file observably passes through a truncated
intermediate from which load recovers no snapshot at all, while both the
complete previous and the complete new document do load; so a
concurrently-polling reader can observe contents that are neither the
complete previous snapshot nor the complete new one, refuting the claim
that every read during a save sees one of the two. -/
theorem save_not_atomic_cex :
    (saveContentsTrace (State.save snapshotBefore) roundTripState).get? 1 =
      some none ∧
    State.load "2026-10-12T09:00:00" none = none ∧
    State.load "2026-10-12T09:00:00" (State.save snapshotBefore) =
      some snapshotBefore ∧
    State.load "2026-10-12T09:00:00" (State.save roundTripState) =
      some roundTripState := by
  exact ⟨rfl, rfl, by decide, by decide⟩

/-- C9 amended: State.save overwrites the snapshot file in place by
truncating and then writing (open with mode "w" followed by json.dump),
not atomically: the file starts at the previous contents, observably
passes through a truncated state that is not a complete document (a
concurrent reader at that instant loads nothing), and only at the end
holds the complete new document. -/
theorem save_truncate_then_write (old : Option Json) (s : State) (now : String) :
    (saveContentsTrace old s).head? = some old ∧
    none ∈ saveContentsTrace old s ∧
    State.load now none = none ∧
    (saveContentsTrace old s).getLast? = some (State.save s) := by
  refine ⟨rfl, ?_, rfl, rfl⟩
  simp [saveContentsTrace]

end SteerRunner
